import Mathlib

/-!
Shallow embedding of the view-state engine of `src/Compoents/DataGridComponent.jsx`
(the `DataGrid` component): the filter→sort pipeline `sortedFilteredData`, the
mutation handlers `handleSort` / `handleFilter` / `handleRowSelect`, and the
callback notification protocol, together with proofs of the spec's claims
about them.
-/

namespace DataGrid

open List

/-- A JavaScript field value as it occurs in the grid's rows: `undefined`,
a number (modelled as an integer), or a string. A field absent from a row
reads as `undefined`, matching JS property access. -/
inductive Value where
  | undefined : Value
  | int : Int → Value
  | str : String → Value
deriving DecidableEq

/-- Numeric coercion used by JS relational operators on non-string operands:
numbers are themselves, strings convert via `Number(...)` (here: integer
parsing; a non-numeric string is NaN, i.e. `none`), `undefined` is NaN. -/
def Value.toNum : Value → Option Int
  | .int n => some n
  | .str s => s.toInt?
  | .undefined => none

/-- `Value.isInt v` is true when `v` is a number. -/
def Value.isInt : Value → Bool
  | .int _ => true
  | _ => false

/-- `Value.isStr v` is true when `v` is a string. -/
def Value.isStr : Value → Bool
  | .str _ => true
  | _ => false

/-- Numeric `<` with NaN poisoning: any comparison involving NaN (`none`)
is false. -/
def numLt (p q : Option Int) : Bool :=
  match p, q with
  | some x, some y => x < y
  | _, _ => false

/-- JS `a > b`: two strings compare lexicographically; otherwise both operands
coerce to numbers (`a > b` holds when `ToNumber(b) < ToNumber(a)`) and any
NaN operand (e.g. `undefined`) makes the comparison false. -/
def jsGt (a b : Value) : Bool :=
  match a, b with
  | .str s, .str t => t < s
  | a, b => numLt b.toNum a.toNum

/-- JS `a < b`, mirror image of `jsGt`. -/
def jsLt (a b : Value) : Bool :=
  match a, b with
  | .str s, .str t => s < t
  | a, b => numLt a.toNum b.toNum

/-- A row: an opaque record of the consumer's schema. `id` models JS object
reference identity (each constructed row object is a distinct reference);
`fields` is the row's own properties. -/
structure Row where
  id : Nat
  fields : List (String × Value)
deriving DecidableEq

/-- JS property read `row[f]`: the value stored under key `f`, or `undefined`
when the row has no such property. -/
def Row.get (r : Row) (f : String) : Value :=
  match r.fields.find? (fun e => e.1 == f) with
  | some e => e.2
  | none => .undefined

/-- The sort state `{ field, direction }`. The component initialises it to
`defaultSort || {}`, so either property may be absent (`none`). -/
structure SortSpec where
  field : Option String
  direction : Option String
deriving DecidableEq

/-- JS truthiness of `sort.field`: `undefined` and the empty string are falsy. -/
def fieldTruthy : Option String → Bool
  | none => false
  | some s => !(s == "")

/-- The numeric factor from `sort.direction === 'asc' ? 1 : -1`. -/
def SortSpec.dirFactor (s : SortSpec) : Int :=
  if s.direction = some "asc" then 1 else -1

/-- The comparator passed to `filteredData.sort` in `sortedFilteredData`:
`aValue > bValue ? direction : aValue < bValue ? -direction : 0`. It is only
invoked when `sort.field` is truthy, so reading the field through `getD ""`
never actually uses the default. -/
def rowCompare (s : SortSpec) (a b : Row) : Int :=
  let aValue := a.get (s.field.getD "")
  let bValue := b.get (s.field.getD "")
  if jsGt aValue bValue then s.dirFactor
  else if jsLt aValue bValue then -s.dirFactor
  else 0

/-- The filter registry: the `filters` object, a map from field name to a
filter predicate or `null`. Entries are kept in insertion order, as JS
object keys are; a JS object cannot hold two entries with the same key. -/
abbrev FilterRegistry := List (String × Option (Row → Bool))

/-- `{...filters, [field]: fn}`: if the key is already present its value is
replaced in place (an object has at most one entry per key, so the map
rewrites every matching entry), otherwise the new entry is appended. -/
def setEntry (F : FilterRegistry) (f : String) (v : Option (Row → Bool)) :
    FilterRegistry :=
  if F.any (fun e => e.1 == f) then
    F.map (fun e => if e.1 == f then (f, v) else e)
  else F ++ [(f, v)]

/-- The filtering phase of `sortedFilteredData`:
`Object.entries(filters).forEach(([field, filterFn]) => { if (filterFn)
filteredData = filteredData.filter(filterFn); })`. -/
def applyFilters (filters : FilterRegistry) (rows : List Row) : List Row :=
  filters.foldl
    (fun acc e =>
      match e.2 with
      | some fn => acc.filter fn
      | none => acc)
    rows

/-- Whether one registry entry lets a row through: a non-null predicate is
applied, a `null` entry imposes no condition. -/
def entryHolds (r : Row) (e : String × Option (Row → Bool)) : Bool :=
  match e.2 with
  | some fn => fn r
  | none => true

/-- The conjunction of all registered non-null predicates of the registry on
one row. -/
def activeAll (filters : FilterRegistry) (r : Row) : Bool :=
  filters.all (entryHolds r)

/-- One insertion step of a stable comparator sort: place `x` before the
first element `y` with `cmp x y ≤ 0`. -/
def insertOrdered (cmp : α → α → Int) (x : α) : List α → List α
  | [] => [x]
  | y :: ys => if cmp x y ≤ 0 then x :: y :: ys else y :: insertOrdered cmp x ys

/-- Stable comparator sort, modelling `Array.prototype.sort(comparator)`:
ECMAScript requires the sort to be stable and, for a consistent comparator,
to order `a` before `b` whenever `comparator(a, b) ≤ 0`. Insertion sort is
the canonical stable refinement of that contract. -/
def sortByCmp (cmp : α → α → Int) : List α → List α
  | [] => []
  | x :: xs => insertOrdered cmp x (sortByCmp cmp xs)

/-- `sortedFilteredData` from the component: shallow-copy the data, apply every
non-null registered filter, then, when `sort.field` is truthy, sort by the
field comparator (the copy makes the in-place `.sort` invisible to the
caller, so in value semantics the copy is the identity; the aliasing itself
is modelled separately by the heap-level pipeline below). -/
def sortedFilteredData (data : List Row) (filters : FilterRegistry)
    (sort : SortSpec) : List Row :=
  let filteredData := applyFilters filters data
  if fieldTruthy sort.field then sortByCmp (rowCompare sort) filteredData
  else filteredData

/-- The state owned by the `DataGrid` component: sort spec, filter registry
and the selected-row set. The JS `Set` keeps insertion order, so the
selection is an ordered duplicate-free list. -/
structure GridState where
  sort : SortSpec
  filters : FilterRegistry
  selectedRows : List Row

/-- `handleSort`: compute the new direction (`'desc'` exactly when the same
field is currently sorted ascending, else `'asc'`), store the new sort spec,
and, when an `onSort` listener is configured, notify it with the new spec.
The returned `Option` is the notification payload (`none` = no callback
configured, hence no notification). -/
def handleSort (st : GridState) (field : String) (hasOnSort : Bool) :
    GridState × Option SortSpec :=
  let direction : String :=
    if st.sort.field = some field ∧ st.sort.direction = some "asc" then "desc"
    else "asc"
  let newSort : SortSpec := ⟨some field, some direction⟩
  ({ st with sort := newSort }, if hasOnSort then some newSort else none)

/-- `handleFilter`: `const newFilters = {...filters, [field]: filterFn}`,
store it, and notify a configured `onFilter` listener with the new registry. -/
def handleFilter (st : GridState) (field : String) (fn : Option (Row → Bool))
    (hasOnFilter : Bool) : GridState × Option FilterRegistry :=
  let newFilters := setEntry st.filters field fn
  ({ st with filters := newFilters },
   if hasOnFilter then some newFilters else none)

/-- `handleRowSelect`: copy the selection set, delete the row if present else
add it (JS `Set.add` appends in iteration order), store it, and notify a
configured `onRowSelect` listener with `[...newSelectedRows]` — which is
exactly the new selection list. -/
def handleRowSelect (st : GridState) (row : Row) (hasOnRowSelect : Bool) :
    GridState × Option (List Row) :=
  let newSelectedRows :=
    if row ∈ st.selectedRows then st.selectedRows.erase row
    else st.selectedRows ++ [row]
  ({ st with selectedRows := newSelectedRows },
   if hasOnRowSelect then some newSelectedRows else none)

/-- The registry with every entry for field `f` removed: "no filter on `f` at
all", the reference point for clearing a filter. -/
def withoutField (F : FilterRegistry) (f : String) : FilterRegistry :=
  F.filter (fun e => !(e.1 == f))

/-! ### A heap-level model of the pipeline's aliasing behaviour

`sortedFilteredData` starts from `let filteredData = [...data]` precisely so
that the later in-place `filteredData.sort(...)` cannot mutate the
caller-owned `data` array. Value semantics cannot express that concern, so
the pipeline is replayed over an explicit store of array cells: a reference
is an index into the store, `[...data]` allocates a fresh cell, each
`.filter` call allocates a fresh cell for its result (JS `Array.filter`
returns a new array), and `.sort` overwrites the cell it is called on. -/

/-- The store of array cells; a reference is an index into it. -/
abbrev Heap := List (List Row)

/-- Dereference: the rows stored in cell `i` (out-of-range reads a dummy). -/
def readRef (h : Heap) (i : Nat) : List Row := (h[i]?).getD []

/-- Overwrite cell `i` in place. -/
def writeRef (h : Heap) (i : Nat) (v : List Row) : Heap := h.set i v

/-- Allocate a fresh cell holding `v`, returning the extended heap and the
new reference. -/
def allocRef (h : Heap) (v : List Row) : Heap × Nat := (h ++ [v], h.length)

/-- The filter loop at heap level: each non-null `filterFn` allocates a new
array holding `filteredData.filter(filterFn)` and rebinds `filteredData`
to it; null entries are skipped. -/
def runFilterSteps : FilterRegistry → Heap → Nat → Heap × Nat
  | [], h, r => (h, r)
  | (_, none) :: fs, h, r => runFilterSteps fs h r
  | (_, some fn) :: fs, h, r =>
    let cell := allocRef h ((readRef h r).filter fn)
    runFilterSteps fs cell.1 cell.2

/-- `sortedFilteredData` at heap level: copy the source cell into a fresh
cell, run the filter loop, then (when `sort.field` is truthy) sort the
current cell in place. Returns the final heap and the reference to the
derived view. -/
def sortedFilteredDataHeap (h : Heap) (dataRef : Nat) (filters : FilterRegistry)
    (sort : SortSpec) : Heap × Nat :=
  let copy := allocRef h (readRef h dataRef)
  let run := runFilterSteps filters copy.1 copy.2
  if fieldTruthy sort.field then
    (writeRef run.1 run.2 (sortByCmp (rowCompare sort) (readRef run.1 run.2)),
     run.2)
  else run

/-! ### Sample data for concrete witnesses -/

/-- The row `{id: 1, name: 'b'}` from the spec's scenarios. -/
def rowB : Row := ⟨1, [("id", .int 1), ("name", .str "b")]⟩

/-- The row `{id: 2, name: 'a'}` from the spec's scenarios. -/
def rowA : Row := ⟨2, [("id", .int 2), ("name", .str "a")]⟩

/-- A row with no `name` property at all (reads as `undefined`). -/
def rowU : Row := ⟨3, [("id", .int 3)]⟩

/-- The sort spec `{field: 'name', direction: 'asc'}`. -/
def sortAscName : SortSpec := ⟨some "name", some "asc"⟩

/-! ### Basic properties of the stable sort -/

theorem insertOrdered_perm (cmp : α → α → Int) (x : α) (m : List α) :
    insertOrdered cmp x m ~ x :: m := by
  induction m with
  | nil => simp [insertOrdered]
  | cons y ys ih =>
    by_cases h : cmp x y ≤ 0
    · simp [insertOrdered, h]
    · simp only [insertOrdered, if_neg h]
      exact (ih.cons y).trans (List.Perm.swap x y ys)

theorem sortByCmp_perm (cmp : α → α → Int) (l : List α) :
    sortByCmp cmp l ~ l := by
  induction l with
  | nil => simp [sortByCmp]
  | cons x xs ih =>
    exact (insertOrdered_perm cmp x (sortByCmp cmp xs)).trans (ih.cons x)

theorem mem_insertOrdered (cmp : α → α → Int) (x z : α) (m : List α) :
    z ∈ insertOrdered cmp x m ↔ z = x ∨ z ∈ m := by
  have := (insertOrdered_perm cmp x m).mem_iff (a := z)
  simpa using this

theorem sublist_insertOrdered_self (cmp : α → α → Int) (x : α) (m : List α) :
    m <+ insertOrdered cmp x m := by
  induction m with
  | nil => simp [insertOrdered]
  | cons y ys ih =>
    by_cases h : cmp x y ≤ 0
    · simp only [insertOrdered, if_pos h]
      exact List.sublist_cons_self x (y :: ys)
    · simp only [insertOrdered, if_neg h]
      exact ih.cons₂ y

theorem cons_sublist_insertOrdered (cmp : α → α → Int) (x : α)
    {l' m : List α} (h : l' <+ m) (hx : ∀ z ∈ l', cmp x z ≤ 0) :
    x :: l' <+ insertOrdered cmp x m := by
  induction m generalizing l' with
  | nil =>
    have : l' = [] := List.sublist_nil.mp h
    subst this
    simp [insertOrdered]
  | cons y ys ih =>
    by_cases hxy : cmp x y ≤ 0
    · simp only [insertOrdered, if_pos hxy]
      exact h.cons₂ x
    · simp only [insertOrdered, if_neg hxy]
      cases h with
      | cons _ h' =>
        exact (ih h' hx).cons y
      | cons₂ _ h' =>
        exact absurd (hx y (List.mem_cons_self y _)) hxy

/-- Stability of the comparator sort: any sublist whose elements are pairwise
already in ≤-comparator order stays a sublist of the sorted output. This
holds for an arbitrary (even inconsistent) comparator. -/
theorem sublist_sortByCmp (cmp : α → α → Int) {l' l : List α} (h : l' <+ l)
    (hp : l'.Pairwise (fun a b => cmp a b ≤ 0)) :
    l' <+ sortByCmp cmp l := by
  induction l generalizing l' with
  | nil =>
    have : l' = [] := List.sublist_nil.mp h
    subst this
    simp [sortByCmp]
  | cons a as ih =>
    cases h with
    | cons _ h' =>
      exact (ih h' hp).trans
        (sublist_insertOrdered_self cmp a (sortByCmp cmp as))
    | cons₂ _ h' =>
      rw [List.pairwise_cons] at hp
      exact cons_sublist_insertOrdered cmp a (ih h' hp.2) hp.1

theorem pairwise_insertOrdered (cmp : α → α → Int) (x : α) {m : List α}
    (htr : ∀ b ∈ m, ∀ c ∈ m, cmp x b ≤ 0 → cmp b c ≤ 0 → cmp x c ≤ 0)
    (htot : ∀ b ∈ m, cmp x b ≤ 0 ∨ cmp b x ≤ 0)
    (hm : m.Pairwise (fun a b => cmp a b ≤ 0)) :
    (insertOrdered cmp x m).Pairwise (fun a b => cmp a b ≤ 0) := by
  induction m with
  | nil => simp [insertOrdered]
  | cons y ys ih =>
    rw [List.pairwise_cons] at hm
    by_cases hxy : cmp x y ≤ 0
    · simp only [insertOrdered, if_pos hxy]
      rw [List.pairwise_cons]
      refine ⟨?_, List.pairwise_cons.mpr hm⟩
      intro z hz
      rcases List.mem_cons.mp hz with rfl | hz'
      · exact hxy
      · exact htr y (List.mem_cons_self y ys) z (List.mem_cons_of_mem y hz')
          hxy (hm.1 z hz')
    · simp only [insertOrdered, if_neg hxy]
      rw [List.pairwise_cons]
      constructor
      · intro z hz
        rcases (mem_insertOrdered cmp x z ys).mp hz with rfl | hz'
        · rcases htot y (List.mem_cons_self y ys) with h | h
          · exact absurd h hxy
          · exact h
        · exact hm.1 z hz'
      · exact ih
          (fun b hb c hc => htr b (List.mem_cons_of_mem y hb) c
            (List.mem_cons_of_mem y hc))
          (fun b hb => htot b (List.mem_cons_of_mem y hb)) hm.2

/-- Sortedness of the comparator sort, assuming the comparator is total and
transitive on the elements of the list being sorted. -/
theorem pairwise_sortByCmp (cmp : α → α → Int) {l : List α}
    (htr : ∀ a ∈ l, ∀ b ∈ l, ∀ c ∈ l,
      cmp a b ≤ 0 → cmp b c ≤ 0 → cmp a c ≤ 0)
    (htot : ∀ a ∈ l, ∀ b ∈ l, cmp a b ≤ 0 ∨ cmp b a ≤ 0) :
    (sortByCmp cmp l).Pairwise (fun a b => cmp a b ≤ 0) := by
  induction l with
  | nil => simp [sortByCmp]
  | cons x xs ih =>
    have hmem : ∀ z, z ∈ sortByCmp cmp xs → z ∈ xs := by
      intro z hz
      exact (sortByCmp_perm cmp xs).mem_iff.mp hz
    exact pairwise_insertOrdered cmp x
      (fun b hb c hc => htr x (List.mem_cons_self x xs) b
        (List.mem_cons_of_mem x (hmem b hb)) c
        (List.mem_cons_of_mem x (hmem c hc)))
      (fun b hb => htot x (List.mem_cons_self x xs) b
        (List.mem_cons_of_mem x (hmem b hb)))
      (ih
        (fun a ha b hb c hc => htr a (List.mem_cons_of_mem x ha) b
          (List.mem_cons_of_mem x hb) c (List.mem_cons_of_mem x hc))
        (fun a ha b hb => htot a (List.mem_cons_of_mem x ha) b
          (List.mem_cons_of_mem x hb)))

/-! ### The filtering phase as a single conjunctive filter -/

theorem applyFilters_eq_filter (filters : FilterRegistry) (rows : List Row) :
    applyFilters filters rows = rows.filter (activeAll filters) := by
  induction filters generalizing rows with
  | nil =>
    show rows = _
    rw [List.filter_eq_self.mpr]
    intro a _
    rfl
  | cons e fs ih =>
    match e with
    | (f, some fn) =>
      show applyFilters fs (rows.filter fn) = _
      rw [ih, List.filter_filter]
      apply List.filter_congr
      intro r _
      simp [activeAll, entryHolds, Bool.and_comm]
    | (f, none) =>
      show applyFilters fs rows = _
      rw [ih]
      apply List.filter_congr
      intro r _
      simp [activeAll, entryHolds]

theorem sortedFilteredData_perm (d : List Row) (F : FilterRegistry)
    (s : SortSpec) : sortedFilteredData d F s ~ applyFilters F d := by
  unfold sortedFilteredData
  by_cases h : fieldTruthy s.field = true
  · simp only [if_pos h]
    exact sortByCmp_perm _ _
  · simp only [if_neg h]
    exact List.Perm.refl _

/-- C1: for every source row list, filter registry and sort spec, the derived
view is, as a multiset, exactly the rows passing every registered non-null
predicate (so it is a sub-multiset of the source: rows failing an active
predicate are absent, and no row is duplicated or invented), and a row is in
the derived view exactly when it is a source row passing all active
predicates. -/
theorem c1_derived_view_exactly_filtered (d : List Row) (F : FilterRegistry)
    (s : SortSpec) :
    sortedFilteredData d F s ~ d.filter (activeAll F)
    ∧ sortedFilteredData d F s <+~ d
    ∧ (∀ r : Row, r ∈ sortedFilteredData d F s ↔
        r ∈ d ∧ activeAll F r = true) := by
  have hperm : sortedFilteredData d F s ~ d.filter (activeAll F) := by
    have := sortedFilteredData_perm d F s
    rwa [applyFilters_eq_filter] at this
  refine ⟨hperm, ?_, ?_⟩
  · exact hperm.subperm.trans (List.filter_sublist d).subperm
  · intro r
    rw [hperm.mem_iff, List.mem_filter]

/-! ### Properties of the JS relational operators and the field comparator -/

theorem jsGt_eq_jsLt_swap (a b : Value) : jsGt a b = jsLt b a := by
  cases a <;> cases b <;> rfl

theorem numLt_none_left (q : Option Int) : numLt none q = false := rfl

theorem numLt_none_right (p : Option Int) : numLt p none = false := by
  cases p <;> rfl

theorem numLt_asymm {p q : Option Int} (h : numLt p q = true) :
    numLt q p = false := by
  cases p <;> cases q <;> simp_all [numLt]
  omega

theorem jsLt_asymm {a b : Value} (h : jsLt a b = true) : jsLt b a = false := by
  cases a <;> cases b <;>
    first
      | (unfold jsLt at h ⊢
         exact numLt_asymm h)
      | (simp only [jsLt, decide_eq_true_eq] at h
         simp only [jsLt, decide_eq_false_iff_not]
         exact lt_asymm h)

theorem jsGt_undef_left (b : Value) : jsGt .undefined b = false := by
  cases b <;> simp [jsGt, Value.toNum, numLt_none_right]

theorem jsGt_undef_right (a : Value) : jsGt a .undefined = false := by
  cases a <;> simp [jsGt, Value.toNum, numLt_none_left]

theorem jsLt_undef_left (b : Value) : jsLt .undefined b = false := by
  cases b <;> simp [jsLt, Value.toNum, numLt_none_left]

theorem jsLt_undef_right (a : Value) : jsLt a .undefined = false := by
  cases a <;> simp [jsLt, Value.toNum, numLt_none_right]

theorem dirFactor_asc {s : SortSpec} (h : s.direction = some "asc") :
    s.dirFactor = 1 := by
  simp [SortSpec.dirFactor, h]

theorem dirFactor_not_asc {s : SortSpec} (h : ¬s.direction = some "asc") :
    s.dirFactor = -1 := by
  simp [SortSpec.dirFactor, h]

/-- The comparator judges two rows equal (returns 0) as soon as neither value
is `>` nor `<` the other; in particular whenever either row's sort-field
value is `undefined`. -/
theorem rowCompare_zero_of_undefined {s : SortSpec} {f : String}
    (hf : s.field = some f) (a b : Row)
    (h : a.get f = .undefined ∨ b.get f = .undefined) : rowCompare s a b = 0 := by
  simp only [rowCompare, hf, Option.getD_some]
  rcases h with h | h <;>
    simp [h, jsGt_undef_left, jsGt_undef_right, jsLt_undef_left,
      jsLt_undef_right]

/-- The comparator is total in the weak sense needed for sorting: for any two
rows, at least one direction compares `≤ 0`. Holds for arbitrary values. -/
theorem rowCompare_total (s : SortSpec) (a b : Row) :
    rowCompare s a b ≤ 0 ∨ rowCompare s b a ≤ 0 := by
  simp only [rowCompare]
  generalize a.get (s.field.getD "") = va
  generalize b.get (s.field.getD "") = vb
  by_cases hab : jsLt va vb = true
  · have hba := jsLt_asymm hab
    have g1 : jsGt va vb = false := by rw [jsGt_eq_jsLt_swap]; exact hba
    have g2 : jsGt vb va = true := by rw [jsGt_eq_jsLt_swap]; exact hab
    simp only [g1, g2, hab, hba]
    simp only [Bool.false_eq_true, if_false, if_true]
    omega
  · rw [Bool.not_eq_true] at hab
    have g2 : jsGt vb va = false := by rw [jsGt_eq_jsLt_swap]; exact hab
    by_cases hba : jsLt vb va = true
    · have g1 : jsGt va vb = true := by rw [jsGt_eq_jsLt_swap]; exact hba
      simp only [g1, g2, hab, hba]
      simp only [Bool.false_eq_true, if_false, if_true]
      omega
    · rw [Bool.not_eq_true] at hba
      have g1 : jsGt va vb = false := by rw [jsGt_eq_jsLt_swap]; exact hba
      simp only [g1, g2, hab, hba]
      simp

theorem jsGt_int_int (m n : Int) : jsGt (.int m) (.int n) = decide (n < m) :=
  rfl

theorem jsLt_int_int (m n : Int) : jsLt (.int m) (.int n) = decide (m < n) :=
  rfl

theorem jsGt_str_str (s t : String) : jsGt (.str s) (.str t) = decide (t < s) :=
  rfl

theorem jsLt_str_str (s t : String) : jsLt (.str s) (.str t) = decide (s < t) :=
  rfl

theorem Value.isInt_iff {v : Value} : v.isInt = true ↔ ∃ n, v = .int n := by
  cases v <;> simp [Value.isInt]

theorem Value.isStr_iff {v : Value} : v.isStr = true ↔ ∃ t, v = .str t := by
  cases v <;> simp [Value.isStr]

theorem rowCompare_le_asc_iff_int {s : SortSpec} {f : String}
    (hf : s.field = some f) (hd : s.direction = some "asc") {a b : Row}
    {ma mb : Int} (ha : a.get f = .int ma) (hb : b.get f = .int mb) :
    rowCompare s a b ≤ 0 ↔ ma ≤ mb := by
  simp only [rowCompare, hf, Option.getD_some, ha, hb, jsGt_int_int,
    jsLt_int_int, dirFactor_asc hd, decide_eq_true_eq]
  split_ifs <;> constructor <;> intro h <;> omega

theorem rowCompare_le_desc_iff_int {s : SortSpec} {f : String}
    (hf : s.field = some f) (hd : ¬s.direction = some "asc") {a b : Row}
    {ma mb : Int} (ha : a.get f = .int ma) (hb : b.get f = .int mb) :
    rowCompare s a b ≤ 0 ↔ mb ≤ ma := by
  simp only [rowCompare, hf, Option.getD_some, ha, hb, jsGt_int_int,
    jsLt_int_int, dirFactor_not_asc hd, decide_eq_true_eq]
  split_ifs <;> constructor <;> intro h <;> omega

theorem rowCompare_le_asc_iff_str {s : SortSpec} {f : String}
    (hf : s.field = some f) (hd : s.direction = some "asc") {a b : Row}
    {ta tb : String} (ha : a.get f = .str ta) (hb : b.get f = .str tb) :
    rowCompare s a b ≤ 0 ↔ ta ≤ tb := by
  simp only [rowCompare, hf, Option.getD_some, ha, hb, jsGt_str_str,
    jsLt_str_str, dirFactor_asc hd, decide_eq_true_eq]
  split_ifs with h1 h2
  · exact iff_of_false (by norm_num) (not_le.mpr h1)
  · exact iff_of_true (by norm_num) (le_of_lt h2)
  · exact iff_of_true le_rfl (not_lt.mp h1)

theorem rowCompare_le_desc_iff_str {s : SortSpec} {f : String}
    (hf : s.field = some f) (hd : ¬s.direction = some "asc") {a b : Row}
    {ta tb : String} (ha : a.get f = .str ta) (hb : b.get f = .str tb) :
    rowCompare s a b ≤ 0 ↔ tb ≤ ta := by
  simp only [rowCompare, hf, Option.getD_some, ha, hb, jsGt_str_str,
    jsLt_str_str, dirFactor_not_asc hd, decide_eq_true_eq]
  split_ifs with h1 h2
  · exact iff_of_true (by norm_num) (le_of_lt h1)
  · exact iff_of_false (by norm_num) (not_le.mpr h2)
  · exact iff_of_true le_rfl (not_lt.mp h2)

theorem rowCompare_trans_int {s : SortSpec} {f : String}
    (hf : s.field = some f) {a b c : Row} {ma mb mc : Int}
    (ha : a.get f = .int ma) (hb : b.get f = .int mb)
    (hc : c.get f = .int mc) :
    rowCompare s a b ≤ 0 → rowCompare s b c ≤ 0 → rowCompare s a c ≤ 0 := by
  by_cases hd : s.direction = some "asc"
  · rw [rowCompare_le_asc_iff_int hf hd ha hb,
      rowCompare_le_asc_iff_int hf hd hb hc,
      rowCompare_le_asc_iff_int hf hd ha hc]
    omega
  · rw [rowCompare_le_desc_iff_int hf hd ha hb,
      rowCompare_le_desc_iff_int hf hd hb hc,
      rowCompare_le_desc_iff_int hf hd ha hc]
    omega

theorem rowCompare_trans_str {s : SortSpec} {f : String}
    (hf : s.field = some f) {a b c : Row} {ta tb tc : String}
    (ha : a.get f = .str ta) (hb : b.get f = .str tb)
    (hc : c.get f = .str tc) :
    rowCompare s a b ≤ 0 → rowCompare s b c ≤ 0 → rowCompare s a c ≤ 0 := by
  by_cases hd : s.direction = some "asc"
  · rw [rowCompare_le_asc_iff_str hf hd ha hb,
      rowCompare_le_asc_iff_str hf hd hb hc,
      rowCompare_le_asc_iff_str hf hd ha hc]
    exact le_trans
  · rw [rowCompare_le_desc_iff_str hf hd ha hb,
      rowCompare_le_desc_iff_str hf hd hb hc,
      rowCompare_le_desc_iff_str hf hd ha hc]
    intro h1 h2
    exact le_trans h2 h1

theorem jsGt_false_of_rowCompare_le {s : SortSpec} {f : String}
    (hf : s.field = some f) (hd : s.direction = some "asc") {a b : Row}
    (h : rowCompare s a b ≤ 0) : jsGt (a.get f) (b.get f) = false := by
  by_contra hne
  rw [Bool.not_eq_false] at hne
  simp only [rowCompare, hf, Option.getD_some, hne, if_true,
    dirFactor_asc hd] at h
  omega

theorem jsLt_false_of_rowCompare_le {s : SortSpec} {f : String}
    (hf : s.field = some f) (hd : ¬s.direction = some "asc") {a b : Row}
    (h : rowCompare s a b ≤ 0) : jsLt (a.get f) (b.get f) = false := by
  by_contra hne
  rw [Bool.not_eq_false] at hne
  have hgt : jsGt (a.get f) (b.get f) = false := by
    rw [jsGt_eq_jsLt_swap]
    exact jsLt_asymm hne
  simp only [rowCompare, hf, Option.getD_some, hne, hgt,
    Bool.false_eq_true, if_false, if_true, dirFactor_not_asc hd] at h
  omega

/-- C2: when the sort field is non-empty and the filtered rows carry mutually
comparable values at that field (all numbers, or all strings), the derived
view is totally ordered by `row[field]` in the given direction (`'asc'`
ascending: no row's value is greater than a later row's; any other direction
descending: no row's value is less than a later row's), and the sort is
stable: rows whose field values compare neither greater nor less (comparator
0) keep their relative order from the filtered input. -/
theorem c2_sorted_and_stable (d : List Row) (F : FilterRegistry) (s : SortSpec)
    (f : String) (hf : s.field = some f) (hne : ¬f = "")
    (hv : (∀ r ∈ applyFilters F d, (r.get f).isInt = true)
        ∨ (∀ r ∈ applyFilters F d, (r.get f).isStr = true)) :
    ((s.direction = some "asc" →
        (sortedFilteredData d F s).Pairwise
          (fun a b => jsGt (a.get f) (b.get f) = false))
      ∧ (¬s.direction = some "asc" →
        (sortedFilteredData d F s).Pairwise
          (fun a b => jsLt (a.get f) (b.get f) = false)))
    ∧ (∀ l' : List Row, l' <+ applyFilters F d →
        l'.Pairwise (fun a b => rowCompare s a b = 0) →
        l' <+ sortedFilteredData d F s) := by
  have htruthy : fieldTruthy s.field = true := by
    rw [hf]
    simp [fieldTruthy, hne]
  have hderived : sortedFilteredData d F s
      = sortByCmp (rowCompare s) (applyFilters F d) := by
    unfold sortedFilteredData
    rw [if_pos htruthy]
  have htr : ∀ a ∈ applyFilters F d, ∀ b ∈ applyFilters F d,
      ∀ c ∈ applyFilters F d, rowCompare s a b ≤ 0 → rowCompare s b c ≤ 0 →
      rowCompare s a c ≤ 0 := by
    intro a ha b hb c hc
    rcases hv with hint | hstr
    · rcases Value.isInt_iff.mp (hint a ha) with ⟨ma, hma⟩
      rcases Value.isInt_iff.mp (hint b hb) with ⟨mb, hmb⟩
      rcases Value.isInt_iff.mp (hint c hc) with ⟨mc, hmc⟩
      exact rowCompare_trans_int hf hma hmb hmc
    · rcases Value.isStr_iff.mp (hstr a ha) with ⟨ta, hta⟩
      rcases Value.isStr_iff.mp (hstr b hb) with ⟨tb, htb⟩
      rcases Value.isStr_iff.mp (hstr c hc) with ⟨tc, htc⟩
      exact rowCompare_trans_str hf hta htb htc
  have hpw : (sortByCmp (rowCompare s) (applyFilters F d)).Pairwise
      (fun a b => rowCompare s a b ≤ 0) :=
    pairwise_sortByCmp (rowCompare s) htr
      (fun a _ b _ => rowCompare_total s a b)
  constructor
  · constructor
    · intro hd
      rw [hderived]
      exact hpw.imp (fun hab => jsGt_false_of_rowCompare_le hf hd hab)
    · intro hd
      rw [hderived]
      exact hpw.imp (fun hab => jsLt_false_of_rowCompare_le hf hd hab)
  · intro l' hsub hpw'
    rw [hderived]
    exact sublist_sortByCmp (rowCompare s) hsub
      (hpw'.imp (fun hab => le_of_eq hab))

/-- Concrete instantiation of `c2_sorted_and_stable` on the spec's scenario
rows `[{id:1,name:'b'}, {id:2,name:'a'}]` sorted ascending by `name`,
discharging its hypotheses. -/
theorem c2_sorted_and_stable_witness :
    (¬"name" = "")
    ∧ ((∀ r ∈ applyFilters ([] : FilterRegistry) [rowB, rowA],
          (r.get "name").isInt = true)
        ∨ (∀ r ∈ applyFilters ([] : FilterRegistry) [rowB, rowA],
          (r.get "name").isStr = true))
    ∧ (((sortAscName.direction = some "asc" →
          (sortedFilteredData [rowB, rowA] [] sortAscName).Pairwise
            (fun a b => jsGt (a.get "name") (b.get "name") = false))
        ∧ (¬sortAscName.direction = some "asc" →
          (sortedFilteredData [rowB, rowA] [] sortAscName).Pairwise
            (fun a b => jsLt (a.get "name") (b.get "name") = false)))
      ∧ (∀ l' : List Row, l' <+ applyFilters [] [rowB, rowA] →
          l'.Pairwise (fun a b => rowCompare sortAscName a b = 0) →
          l' <+ sortedFilteredData [rowB, rowA] [] sortAscName)) :=
  ⟨by decide, Or.inr (by decide),
    c2_sorted_and_stable [rowB, rowA] [] sortAscName "name" rfl (by decide)
      (Or.inr (by decide))⟩

/-! ### Heap-level reasoning for the aliasing claim -/

theorem readRef_append_lt {h : Heap} {i : Nat} (hlt : i < h.length)
    (v : List Row) : readRef (h ++ [v]) i = readRef h i := by
  unfold readRef
  rw [List.getElem?_append_left hlt]

theorem readRef_concat_length (h : Heap) (v : List Row) :
    readRef (h ++ [v]) h.length = v := by
  unfold readRef
  rw [List.getElem?_concat_length]
  rfl

theorem readRef_set_ne {h : Heap} {i j : Nat} (hne : i ≠ j) (v : List Row) :
    readRef (writeRef h i v) j = readRef h j := by
  unfold readRef writeRef
  rw [List.getElem?_set_ne hne]

theorem readRef_set_self {h : Heap} {i : Nat} (hlt : i < h.length)
    (v : List Row) : readRef (writeRef h i v) i = v := by
  unfold readRef writeRef
  rw [List.getElem?_set_self hlt]
  rfl

/-- The filter loop only allocates fresh cells: it can only grow the heap,
its result reference is a valid cell distinct from every pre-existing cell
other than the input reference, every pre-existing cell is untouched, and
the result cell holds exactly `applyFilters` of the input cell. -/
theorem runFilterSteps_spec (F : FilterRegistry) (h : Heap) (r : Nat)
    (hr : r < h.length) :
    h.length ≤ (runFilterSteps F h r).1.length
    ∧ (runFilterSteps F h r).2 < (runFilterSteps F h r).1.length
    ∧ (∀ i, i < h.length → readRef (runFilterSteps F h r).1 i = readRef h i)
    ∧ (∀ j, j < h.length → j ≠ r → j ≠ (runFilterSteps F h r).2)
    ∧ readRef (runFilterSteps F h r).1 (runFilterSteps F h r).2
        = applyFilters F (readRef h r) := by
  induction F generalizing h r with
  | nil =>
    exact ⟨le_rfl, hr, fun i _ => rfl, fun j _ hj => hj, rfl⟩
  | cons e fs ih =>
    obtain ⟨g, v⟩ := e
    cases v with
    | none =>
      exact ih h r hr
    | some fn =>
      have hr' : h.length < (h ++ [(readRef h r).filter fn]).length := by
        simp
      have key := ih (h ++ [(readRef h r).filter fn]) h.length hr'
      refine ⟨?_, ?_, ?_, ?_, ?_⟩
      · exact le_trans (Nat.le_of_lt hr') key.1
      · exact key.2.1
      · intro i hi
        rw [show (runFilterSteps ((g, some fn) :: fs) h r)
            = runFilterSteps fs (h ++ [(readRef h r).filter fn]) h.length
            from rfl]
        rw [key.2.2.1 i (lt_trans hi hr'), readRef_append_lt hi]
      · intro j hj _
        exact key.2.2.2.1 j (lt_trans hj hr') (Nat.ne_of_lt hj)
      · rw [show (runFilterSteps ((g, some fn) :: fs) h r)
            = runFilterSteps fs (h ++ [(readRef h r).filter fn]) h.length
            from rfl]
        rw [key.2.2.2.2, readRef_concat_length]
        rfl

/-- C7: the heap-level pipeline never mutates the caller-supplied source
cell: after computing the derived view (including the in-place sort, which
hits only the freshly allocated shallow copy), the source cell's row
sequence is unchanged — and the derived cell holds exactly the value-level
`sortedFilteredData` of the source rows. -/
theorem c7_source_rows_unchanged (h : Heap) (dataRef : Nat)
    (F : FilterRegistry) (s : SortSpec) (hd : dataRef < h.length) :
    readRef (sortedFilteredDataHeap h dataRef F s).1 dataRef
      = readRef h dataRef
    ∧ readRef (sortedFilteredDataHeap h dataRef F s).1
        (sortedFilteredDataHeap h dataRef F s).2
      = sortedFilteredData (readRef h dataRef) F s := by
  have hr1 : h.length < (h ++ [readRef h dataRef]).length := by simp
  have key := runFilterSteps_spec F (h ++ [readRef h dataRef]) h.length hr1
  have hread1 :
      readRef (runFilterSteps F (h ++ [readRef h dataRef]) h.length).1 dataRef
        = readRef h dataRef := by
    rw [key.2.2.1 dataRef (lt_trans hd hr1), readRef_append_lt hd]
  have hne : dataRef ≠ (runFilterSteps F (h ++ [readRef h dataRef]) h.length).2 :=
    key.2.2.2.1 dataRef (lt_trans hd hr1) (Nat.ne_of_lt hd)
  have hcontent :
      readRef (runFilterSteps F (h ++ [readRef h dataRef]) h.length).1
        (runFilterSteps F (h ++ [readRef h dataRef]) h.length).2
      = applyFilters F (readRef h dataRef) := by
    rw [key.2.2.2.2, readRef_concat_length]
  simp only [sortedFilteredDataHeap, allocRef]
  by_cases ht : fieldTruthy s.field = true
  · rw [if_pos ht]
    constructor
    · rw [readRef_set_ne (Ne.symm hne), hread1]
    · rw [readRef_set_self key.2.1, hcontent]
      simp only [sortedFilteredData]
      rw [if_pos ht]
  · rw [if_neg ht]
    refine ⟨hread1, ?_⟩
    rw [hcontent]
    simp only [sortedFilteredData]
    rw [if_neg ht]

/-- Concrete instantiation of `c7_source_rows_unchanged` on a one-cell heap
holding the scenario rows. -/
theorem c7_source_rows_unchanged_witness :
    0 < ([[rowB, rowA]] : Heap).length
    ∧ (readRef (sortedFilteredDataHeap [[rowB, rowA]] 0 [] sortAscName).1 0
        = readRef [[rowB, rowA]] 0
      ∧ readRef (sortedFilteredDataHeap [[rowB, rowA]] 0 [] sortAscName).1
          (sortedFilteredDataHeap [[rowB, rowA]] 0 [] sortAscName).2
        = sortedFilteredData (readRef [[rowB, rowA]] 0) [] sortAscName) :=
  ⟨by decide, c7_source_rows_unchanged [[rowB, rowA]] 0 [] sortAscName
    (by decide)⟩

/-! ### Registry update (`{...filters, [field]: fn}`) properties -/

theorem setEntry_setEntry (F : FilterRegistry) (f : String)
    (v w : Option (Row → Bool)) :
    setEntry (setEntry F f v) f w = setEntry F f w := by
  by_cases h : F.any (fun e => e.1 == f) = true
  · have L1 : setEntry F f v
        = F.map (fun e => if e.1 == f then (f, v) else e) := by
      unfold setEntry
      rw [if_pos h]
    have L2 : setEntry F f w
        = F.map (fun e => if e.1 == f then (f, w) else e) := by
      unfold setEntry
      rw [if_pos h]
    have hany : (F.map (fun e => if e.1 == f then (f, v) else e)).any
        (fun e => e.1 == f) = true := by
      rcases List.any_eq_true.mp h with ⟨x, hx, hpx⟩
      apply List.any_eq_true.mpr
      refine ⟨(f, v), List.mem_map.mpr ⟨x, hx, ?_⟩, ?_⟩
      · rw [if_pos hpx]
      · simp
    have L3 : setEntry (F.map (fun e => if e.1 == f then (f, v) else e)) f w
        = (F.map (fun e => if e.1 == f then (f, v) else e)).map
            (fun e => if e.1 == f then (f, w) else e) := by
      unfold setEntry
      rw [if_pos hany]
    rw [L1, L3, L2, List.map_map]
    apply List.map_congr_left
    intro e _
    by_cases he : (e.1 == f) = true
    · simp [Function.comp, he]
    · simp [Function.comp, he]
  · have hnone : ∀ e ∈ F, (e.1 == f) = false := fun e he =>
      eq_false_of_ne_true (List.any_eq_false.mp (eq_false_of_ne_true h) e he)
    have M1 : setEntry F f v = F ++ [(f, v)] := by
      unfold setEntry
      rw [if_neg h]
    have M2 : setEntry F f w = F ++ [(f, w)] := by
      unfold setEntry
      rw [if_neg h]
    have hany2 : (F ++ [(f, v)]).any (fun e => e.1 == f) = true := by simp
    have M3 : setEntry (F ++ [(f, v)]) f w
        = (F ++ [(f, v)]).map (fun e => if e.1 == f then (f, w) else e) := by
      unfold setEntry
      rw [if_pos hany2]
    have hmapF : F.map (fun e => if e.1 == f then (f, w) else e) = F := by
      calc F.map (fun e => if e.1 == f then (f, w) else e)
          = F.map (fun e => e) :=
            List.map_congr_left (fun e he => if_neg (by simp [hnone e he]))
        _ = F := List.map_id' F
    rw [M1, M3, M2, List.map_append, hmapF]
    simp

theorem activeAll_map_clear (F : FilterRegistry) (f : String) (r : Row) :
    activeAll (F.map (fun e => if e.1 == f then (f, none) else e)) r
      = activeAll (withoutField F f) r := by
  induction F with
  | nil => rfl
  | cons e fs ih =>
    by_cases he : (e.1 == f) = true
    · rw [List.map_cons, if_pos he]
      have h1 : withoutField (e :: fs) f = withoutField fs f := by
        unfold withoutField
        rw [List.filter_cons_of_neg (by simp [he])]
      rw [h1]
      show (entryHolds r (f, none)
          && activeAll (fs.map (fun e => if e.1 == f then (f, none) else e)) r)
        = _
      rw [show entryHolds r ((f : String), (none : Option (Row → Bool))) = true
        from rfl, Bool.true_and]
      exact ih
    · rw [List.map_cons, if_neg he]
      have h1 : withoutField (e :: fs) f = e :: withoutField fs f := by
        unfold withoutField
        rw [List.filter_cons_of_pos (by simp [he])]
      rw [h1]
      show (entryHolds r e
          && activeAll (fs.map (fun e => if e.1 == f then (f, none) else e)) r)
        = (entryHolds r e && activeAll (withoutField fs f) r)
      rw [ih]

theorem activeAll_append_none (F : FilterRegistry) (f : String) (r : Row) :
    activeAll (F ++ [(f, none)]) r = activeAll F r := by
  simp [activeAll, entryHolds]

theorem withoutField_eq_self {F : FilterRegistry} {f : String}
    (h : ∀ e ∈ F, (e.1 == f) = false) : withoutField F f = F := by
  unfold withoutField
  apply List.filter_eq_self.mpr
  intro e he
  simp [h e he]

/-- Clearing the field `f` in the registry (`{...filters, [field]: null}`)
leaves a registry whose conjunction of active predicates coincides with the
registry that has no entry for `f` at all. -/
theorem activeAll_setEntry_none (F : FilterRegistry) (f : String) (r : Row) :
    activeAll (setEntry F f none) r = activeAll (withoutField F f) r := by
  unfold setEntry
  by_cases h : F.any (fun e => e.1 == f) = true
  · rw [if_pos h]
    exact activeAll_map_clear F f r
  · rw [if_neg h]
    rw [activeAll_append_none]
    rw [withoutField_eq_self (fun e he =>
      eq_false_of_ne_true (List.any_eq_false.mp (eq_false_of_ne_true h) e he))]

/-- Registries with pointwise-equal active conjunctions induce the same
derived view. -/
theorem sortedFilteredData_congr_filters (d : List Row) {F₁ F₂ : FilterRegistry}
    (s : SortSpec) (h : ∀ r, activeAll F₁ r = activeAll F₂ r) :
    sortedFilteredData d F₁ s = sortedFilteredData d F₂ s := by
  unfold sortedFilteredData
  rw [applyFilters_eq_filter, applyFilters_eq_filter,
    List.filter_congr (fun r _ => h r)]

theorem withoutField_setEntry (F : FilterRegistry) (f : String)
    (v : Option (Row → Bool)) :
    withoutField (setEntry F f v) f = withoutField F f := by
  unfold setEntry
  by_cases h : F.any (fun e => e.1 == f) = true
  · rw [if_pos h]
    unfold withoutField
    rw [List.filter_map]
    have hcong : ∀ e ∈ F,
        ((fun e : String × Option (Row → Bool) => !(e.1 == f)) ∘
          (fun e => if e.1 == f then (f, v) else e)) e = !(e.1 == f) := by
      intro e _
      by_cases he : (e.1 == f) = true
      · simp [Function.comp, he]
      · simp [Function.comp, he]
    rw [List.filter_congr hcong]
    apply List.map_congr_left ?_ |>.trans (List.map_id' _)
    intro e he
    have := List.mem_filter.mp he
    rw [if_neg (by simp_all)]
  · rw [if_neg h]
    unfold withoutField
    rw [List.filter_append]
    simp

/-- C5: setting a filter on a field and then clearing it
(`setFilter(f, null)`) yields, for every source row list and sort spec, the
same derived view as having no filter on that field at all. -/
theorem c5_clear_filter_restores (d : List Row) (st : GridState) (s : SortSpec)
    (f : String) (p : Row → Bool) (cb1 cb2 : Bool) :
    sortedFilteredData d
      ((handleFilter (handleFilter st f (some p) cb1).1 f none cb2).1.filters) s
      = sortedFilteredData d (withoutField st.filters f) s := by
  show sortedFilteredData d
      (setEntry (setEntry st.filters f (some p)) f none) s = _
  rw [setEntry_setEntry]
  exact sortedFilteredData_congr_filters d s
    (activeAll_setEntry_none st.filters f)

theorem keys_map_update (F : FilterRegistry) (f : String)
    (v : Option (Row → Bool)) :
    (F.map (fun e => if e.1 == f then (f, v) else e)).map Prod.fst
      = F.map Prod.fst := by
  rw [List.map_map]
  apply List.map_congr_left
  intro e _
  by_cases he : (e.1 == f) = true
  · have he' : e.1 = f := by simpa using he
    simp [Function.comp, he, he']
  · simp [Function.comp, he]

/-- C10: clearing a field's filter never shrinks the registry's key set —
the key stays present, now mapped to null — this null-keyed registry is
exactly what a configured `onFilter` receives, and the cleared entry is
inert only because the pipeline skips null predicates: the derived view
equals the one for the registry with the key removed outright. -/
theorem c10_clear_keeps_key (st : GridState) (f : String) (cb : Bool) :
    (∀ g, g ∈ st.filters.map Prod.fst →
      g ∈ ((handleFilter st f none cb).1.filters.map Prod.fst))
    ∧ f ∈ ((handleFilter st f none cb).1.filters.map Prod.fst)
    ∧ (∀ e ∈ (handleFilter st f none cb).1.filters,
        e.1 = f → e.2.isNone = true)
    ∧ (handleFilter st f none true).2
        = some ((handleFilter st f none true).1.filters)
    ∧ (∀ d s, sortedFilteredData d ((handleFilter st f none cb).1.filters) s
        = sortedFilteredData d
            (withoutField ((handleFilter st f none cb).1.filters) f) s) := by
  have hfil : (handleFilter st f none cb).1.filters
      = setEntry st.filters f none := rfl
  refine ⟨?_, ?_, ?_, rfl, ?_⟩
  · intro g hg
    rw [hfil]
    unfold setEntry
    by_cases h : st.filters.any (fun e => e.1 == f) = true
    · rw [if_pos h, keys_map_update]
      exact hg
    · rw [if_neg h, List.map_append]
      exact List.mem_append_left _ hg
  · rw [hfil]
    unfold setEntry
    by_cases h : st.filters.any (fun e => e.1 == f) = true
    · rw [if_pos h, keys_map_update]
      rcases List.any_eq_true.mp h with ⟨x, hx, hpx⟩
      have hx' : x.1 = f := by simpa using hpx
      exact List.mem_map.mpr ⟨x, hx, hx'⟩
    · rw [if_neg h, List.map_append]
      apply List.mem_append_right
      simp
  · rw [hfil]
    intro e he hef
    unfold setEntry at he
    by_cases h : st.filters.any (fun e => e.1 == f) = true
    · rw [if_pos h] at he
      rcases List.mem_map.mp he with ⟨x, _, hx⟩
      by_cases hxf : (x.1 == f) = true
      · rw [if_pos hxf] at hx
        rw [← hx]
        rfl
      · rw [if_neg hxf] at hx
        subst hx
        exact absurd (by simp [hef]) hxf
    · rw [if_neg h] at he
      rcases List.mem_append.mp he with he' | he'
      · have := List.any_eq_false.mp (eq_false_of_ne_true h) e he'
        exact absurd (by simp [hef]) this
      · rcases List.mem_singleton.mp he' with rfl
        rfl
  · intro d s
    rw [hfil, withoutField_setEntry]
    exact sortedFilteredData_congr_filters d s
      (activeAll_setEntry_none st.filters f)

/-- Concrete instantiation of `c10_clear_keeps_key`: clearing `name` on an
empty registry. -/
theorem c10_clear_keeps_key_witness :
    (∀ g, g ∈ (GridState.mk ⟨none, none⟩ [] []).filters.map Prod.fst →
      g ∈ ((handleFilter ⟨⟨none, none⟩, [], []⟩ "name" none
        true).1.filters.map Prod.fst))
    ∧ "name" ∈ ((handleFilter ⟨⟨none, none⟩, [], []⟩ "name" none
        true).1.filters.map Prod.fst)
    ∧ (∀ e ∈ (handleFilter ⟨⟨none, none⟩, [], []⟩ "name" none true).1.filters,
        e.1 = "name" → e.2.isNone = true)
    ∧ (handleFilter ⟨⟨none, none⟩, [], []⟩ "name" none true).2
        = some ((handleFilter ⟨⟨none, none⟩, [], []⟩ "name" none
            true).1.filters)
    ∧ (∀ d s, sortedFilteredData d
          ((handleFilter ⟨⟨none, none⟩, [], []⟩ "name" none true).1.filters) s
        = sortedFilteredData d
            (withoutField ((handleFilter ⟨⟨none, none⟩, [], []⟩ "name" none
              true).1.filters) "name") s) :=
  c10_clear_keeps_key ⟨⟨none, none⟩, [], []⟩ "name" true

/-- C3: `setSort(f)` yields `{field: f, direction: 'desc'}` exactly when the
current spec is `{field: f, direction: 'asc'}` and `{field: f, direction:
'asc'}` in every other case, so repeated calls with the same field alternate
asc → desc → asc, flipping exactly once per call. -/
theorem c3_sort_direction_toggle (st : GridState) (f : String) (cb : Bool) :
    (st.sort = ⟨some f, some "asc"⟩ →
      (handleSort st f cb).1.sort = ⟨some f, some "desc"⟩)
    ∧ (¬st.sort = ⟨some f, some "asc"⟩ →
      (handleSort st f cb).1.sort = ⟨some f, some "asc"⟩)
    ∧ (handleSort st f cb).1.sort.field = some f
    ∧ ¬(handleSort (handleSort st f cb).1 f cb).1.sort.direction
        = (handleSort st f cb).1.sort.direction
    ∧ (handleSort (handleSort (handleSort st f cb).1 f cb).1 f cb).1.sort
        = (handleSort st f cb).1.sort := by
  obtain ⟨⟨sf, sd⟩, F0, sel0⟩ := st
  by_cases h1 : sf = some f
  · subst h1
    by_cases h2 : sd = some "asc"
    · subst h2
      refine ⟨fun _ => ?_, fun hne => absurd rfl hne, ?_, ?_, ?_⟩ <;>
        simp [handleSort]
    · refine ⟨fun hst => ?_, fun _ => ?_, ?_, ?_, ?_⟩
      · exact absurd (congrArg SortSpec.direction hst) h2
      all_goals simp [handleSort, h2]
  · refine ⟨fun hst => ?_, fun _ => ?_, ?_, ?_, ?_⟩
    · exact absurd (congrArg SortSpec.field hst) h1
    all_goals simp [handleSort, h1]

/-- Concrete instantiation of `c3_sort_direction_toggle`: two `setSort('name')`
calls on the spec's scenario state flip asc to desc. -/
theorem c3_sort_direction_toggle_witness :
    ((GridState.mk ⟨none, none⟩ [] []).sort = ⟨some "name", some "asc"⟩ →
      (handleSort ⟨⟨none, none⟩, [], []⟩ "name" true).1.sort
        = ⟨some "name", some "desc"⟩)
    ∧ (¬(GridState.mk ⟨none, none⟩ [] []).sort = ⟨some "name", some "asc"⟩ →
      (handleSort ⟨⟨none, none⟩, [], []⟩ "name" true).1.sort
        = ⟨some "name", some "asc"⟩)
    ∧ (handleSort ⟨⟨none, none⟩, [], []⟩ "name" true).1.sort.field
        = some "name"
    ∧ ¬(handleSort (handleSort ⟨⟨none, none⟩, [], []⟩ "name" true).1 "name"
          true).1.sort.direction
        = (handleSort ⟨⟨none, none⟩, [], []⟩ "name" true).1.sort.direction
    ∧ (handleSort (handleSort (handleSort ⟨⟨none, none⟩, [], []⟩ "name"
          true).1 "name" true).1 "name" true).1.sort
        = (handleSort ⟨⟨none, none⟩, [], []⟩ "name" true).1.sort :=
  c3_sort_direction_toggle ⟨⟨none, none⟩, [], []⟩ "name" true

/-- C4: `toggleRowSelection(r)` adds `r` to the selection when absent and
removes it when present, and toggling the same row twice returns the
selection — a duplicate-free set — to its prior state (same multiset, same
membership). -/
theorem c4_toggle_involution (st : GridState) (r : Row) (cb : Bool)
    (hnd : st.selectedRows.Nodup) :
    (r ∉ st.selectedRows →
      (handleRowSelect st r cb).1.selectedRows = st.selectedRows ++ [r])
    ∧ (r ∈ st.selectedRows →
      (handleRowSelect st r cb).1.selectedRows = st.selectedRows.erase r)
    ∧ (handleRowSelect (handleRowSelect st r cb).1 r cb).1.selectedRows
        ~ st.selectedRows
    ∧ (∀ x,
        x ∈ (handleRowSelect (handleRowSelect st r cb).1 r cb).1.selectedRows
          ↔ x ∈ st.selectedRows) := by
  have hsel : ∀ st' : GridState, (handleRowSelect st' r cb).1.selectedRows
      = if r ∈ st'.selectedRows then st'.selectedRows.erase r
        else st'.selectedRows ++ [r] := fun _ => rfl
  by_cases hr : r ∈ st.selectedRows
  · have h1 : (handleRowSelect st r cb).1.selectedRows
        = st.selectedRows.erase r := by
      rw [hsel, if_pos hr]
    have hnotin : r ∉ st.selectedRows.erase r := by
      rw [hnd.mem_erase_iff]
      simp
    have h2 : (handleRowSelect (handleRowSelect st r cb).1 r
        cb).1.selectedRows = st.selectedRows.erase r ++ [r] := by
      rw [hsel, h1, if_neg hnotin]
    have hperm : st.selectedRows.erase r ++ [r] ~ st.selectedRows :=
      (List.perm_append_singleton r _).trans (List.perm_cons_erase hr).symm
    refine ⟨fun hab => absurd hr hab, fun _ => h1, ?_, ?_⟩
    · rw [h2]
      exact hperm
    · intro x
      rw [h2]
      exact hperm.mem_iff
  · have h1 : (handleRowSelect st r cb).1.selectedRows
        = st.selectedRows ++ [r] := by
      rw [hsel, if_neg hr]
    have hin : r ∈ st.selectedRows ++ [r] := by simp
    have h2 : (handleRowSelect (handleRowSelect st r cb).1 r
        cb).1.selectedRows = st.selectedRows := by
      rw [hsel, h1, if_pos hin, List.erase_append_right _ hr]
      simp
    refine ⟨fun _ => h1, fun hab => absurd hab hr, ?_, ?_⟩
    · rw [h2]
    · intro x
      rw [h2]

/-- The selection stays duplicate-free under toggling (it starts empty on
mount), so `c4_toggle_involution`'s `Nodup` hypothesis holds in every
reachable state. -/
theorem handleRowSelect_nodup (st : GridState) (r : Row) (cb : Bool)
    (h : st.selectedRows.Nodup) :
    (handleRowSelect st r cb).1.selectedRows.Nodup := by
  show (if r ∈ st.selectedRows then st.selectedRows.erase r
      else st.selectedRows ++ [r]).Nodup
  by_cases hr : r ∈ st.selectedRows
  · rw [if_pos hr]
    exact h.erase r
  · rw [if_neg hr]
    simp [List.nodup_append, h, hr]

/-- Concrete instantiation of `c4_toggle_involution`: toggling `{id:2,
name:'a'}` twice on the selection `[{id:1, name:'b'}]`. -/
theorem c4_toggle_involution_witness :
    ([rowB] : List Row).Nodup
    ∧ ((rowA ∉ [rowB] →
        (handleRowSelect ⟨⟨none, none⟩, [], [rowB]⟩ rowA
          true).1.selectedRows = [rowB] ++ [rowA])
      ∧ (rowA ∈ [rowB] →
        (handleRowSelect ⟨⟨none, none⟩, [], [rowB]⟩ rowA
          true).1.selectedRows = ([rowB] : List Row).erase rowA)
      ∧ (handleRowSelect (handleRowSelect ⟨⟨none, none⟩, [], [rowB]⟩ rowA
            true).1 rowA true).1.selectedRows ~ [rowB]
      ∧ (∀ x, x ∈ (handleRowSelect (handleRowSelect
            ⟨⟨none, none⟩, [], [rowB]⟩ rowA true).1 rowA
            true).1.selectedRows ↔ x ∈ [rowB])) :=
  ⟨by decide,
    c4_toggle_involution ⟨⟨none, none⟩, [], [rowB]⟩ rowA true (by decide)⟩

/-- C6: each mutation notifies its configured callback synchronously with
the post-mutation state — `onSort` with the new sort spec, `onFilter` with
the new registry, `onRowSelect` with the new selection array, whose elements
are exactly the members of the new selection set — and produces no
notification when the callback is not configured. -/
theorem c6_callback_notifications (st : GridState) (f : String)
    (p : Option (Row → Bool)) (r : Row) :
    (handleSort st f true).2 = some ((handleSort st f true).1.sort)
    ∧ (handleSort st f false).2 = none
    ∧ (handleFilter st f p true).2 = some ((handleFilter st f p true).1.filters)
    ∧ (handleFilter st f p false).2 = none
    ∧ (handleRowSelect st r true).2
        = some ((handleRowSelect st r true).1.selectedRows)
    ∧ (handleRowSelect st r false).2 = none
    ∧ (∀ x, x ∈ ((handleRowSelect st r true).2.getD [])
        ↔ x ∈ (handleRowSelect st r true).1.selectedRows) :=
  ⟨rfl, rfl, rfl, rfl, rfl, rfl, fun _ => Iff.rfl⟩

/-- Concrete instantiation of `c6_callback_notifications`. -/
theorem c6_callback_notifications_witness :
    (handleSort ⟨⟨none, none⟩, [], []⟩ "name" true).2
      = some ((handleSort ⟨⟨none, none⟩, [], []⟩ "name" true).1.sort)
    ∧ (handleSort ⟨⟨none, none⟩, [], []⟩ "name" false).2 = none
    ∧ (handleFilter ⟨⟨none, none⟩, [], []⟩ "name" none true).2
      = some ((handleFilter ⟨⟨none, none⟩, [], []⟩ "name" none true).1.filters)
    ∧ (handleFilter ⟨⟨none, none⟩, [], []⟩ "name" none false).2 = none
    ∧ (handleRowSelect ⟨⟨none, none⟩, [], []⟩ rowA true).2
      = some ((handleRowSelect ⟨⟨none, none⟩, [], []⟩ rowA
          true).1.selectedRows)
    ∧ (handleRowSelect ⟨⟨none, none⟩, [], []⟩ rowA false).2 = none
    ∧ (∀ x, x ∈ ((handleRowSelect ⟨⟨none, none⟩, [], []⟩ rowA true).2.getD [])
        ↔ x ∈ (handleRowSelect ⟨⟨none, none⟩, [], []⟩ rowA
            true).1.selectedRows) :=
  c6_callback_notifications ⟨⟨none, none⟩, [], []⟩ "name" none rowA

/-- C8: selection is independent of filtering and sorting — toggling a row
changes neither the sort spec nor the registry (hence not the derived view),
sort/filter mutations leave the selection unchanged, and a row that the
current filters reject remains a member of the selection. -/
theorem c8_selection_independent (st : GridState) (r : Row) (f : String)
    (p : Option (Row → Bool)) (cb : Bool) (d : List Row) :
    (handleRowSelect st r cb).1.sort = st.sort
    ∧ (handleRowSelect st r cb).1.filters = st.filters
    ∧ sortedFilteredData d (handleRowSelect st r cb).1.filters
        (handleRowSelect st r cb).1.sort = sortedFilteredData d st.filters st.sort
    ∧ (handleSort st f cb).1.selectedRows = st.selectedRows
    ∧ (handleFilter st f p cb).1.selectedRows = st.selectedRows
    ∧ (∀ row ∈ st.selectedRows,
        activeAll (handleFilter st f p cb).1.filters row = false →
        row ∈ (handleFilter st f p cb).1.selectedRows) :=
  ⟨rfl, rfl, rfl, rfl, rfl, fun _ h _ => h⟩

/-- Concrete instantiation of `c8_selection_independent`. -/
theorem c8_selection_independent_witness :
    (handleRowSelect ⟨⟨none, none⟩, [], [rowB]⟩ rowA true).1.sort
      = (GridState.mk ⟨none, none⟩ [] [rowB]).sort
    ∧ (handleRowSelect ⟨⟨none, none⟩, [], [rowB]⟩ rowA true).1.filters
      = (GridState.mk ⟨none, none⟩ [] [rowB]).filters
    ∧ sortedFilteredData [rowB, rowA]
        (handleRowSelect ⟨⟨none, none⟩, [], [rowB]⟩ rowA true).1.filters
        (handleRowSelect ⟨⟨none, none⟩, [], [rowB]⟩ rowA true).1.sort
      = sortedFilteredData [rowB, rowA]
          (GridState.mk ⟨none, none⟩ [] [rowB]).filters
          (GridState.mk ⟨none, none⟩ [] [rowB]).sort
    ∧ (handleSort ⟨⟨none, none⟩, [], [rowB]⟩ "name" true).1.selectedRows
      = (GridState.mk ⟨none, none⟩ [] [rowB]).selectedRows
    ∧ (handleFilter ⟨⟨none, none⟩, [], [rowB]⟩ "name" none
        true).1.selectedRows
      = (GridState.mk ⟨none, none⟩ [] [rowB]).selectedRows
    ∧ (∀ row ∈ (GridState.mk ⟨none, none⟩ [] [rowB]).selectedRows,
        activeAll (handleFilter ⟨⟨none, none⟩, [], [rowB]⟩ "name" none
          true).1.filters row = false →
        row ∈ (handleFilter ⟨⟨none, none⟩, [], [rowB]⟩ "name" none
          true).1.selectedRows) :=
  c8_selection_independent ⟨⟨none, none⟩, [], [rowB]⟩ rowA "name" none true
    [rowB, rowA]

/-- C9: under a truthy sort field, the comparator returns 0 for any pair in
which either row's field value is `undefined` (treated as equal), such rows
keep their relative filtered order in the derived view (the subsequence of
undefined-valued rows is unchanged), and no row is dropped (the derived view
is a permutation of the filtered input). -/
theorem c9_undef_rows_kept_in_order (d : List Row) (F : FilterRegistry)
    (s : SortSpec) (f : String) (hf : s.field = some f) (hne : ¬f = "") :
    (∀ a b : Row, a.get f = .undefined ∨ b.get f = .undefined → rowCompare s a b = 0)
    ∧ (sortedFilteredData d F s).filter (fun r => r.get f == Value.undefined)
        = (applyFilters F d).filter (fun r => r.get f == Value.undefined)
    ∧ sortedFilteredData d F s ~ applyFilters F d := by
  have htruthy : fieldTruthy s.field = true := by
    rw [hf]
    simp [fieldTruthy, hne]
  have hderived : sortedFilteredData d F s
      = sortByCmp (rowCompare s) (applyFilters F d) := by
    unfold sortedFilteredData
    rw [if_pos htruthy]
  refine ⟨fun a b h => rowCompare_zero_of_undefined hf a b h, ?_,
    sortedFilteredData_perm d F s⟩
  have hmem : ∀ r ∈ (applyFilters F d).filter
      (fun r => r.get f == Value.undefined), r.get f = Value.undefined := by
    intro r hr
    have := (List.mem_filter.mp hr).2
    simpa using this
  have hpw : ((applyFilters F d).filter
      (fun r => r.get f == Value.undefined)).Pairwise
      (fun a b => rowCompare s a b ≤ 0) := by
    apply List.pairwise_of_forall_mem_list
    intro a ha b hb
    exact le_of_eq (rowCompare_zero_of_undefined hf a b (Or.inl (hmem a ha)))
  have hsub : (applyFilters F d).filter (fun r => r.get f == Value.undefined)
      <+ sortByCmp (rowCompare s) (applyFilters F d) :=
    sublist_sortByCmp (rowCompare s) (List.filter_sublist _) hpw
  have hsub2 : (applyFilters F d).filter (fun r => r.get f == Value.undefined)
      <+ (sortByCmp (rowCompare s) (applyFilters F d)).filter
          (fun r => r.get f == Value.undefined) := by
    have h2 := hsub.filter (fun r => r.get f == Value.undefined)
    rwa [List.filter_eq_self.mpr (fun a ha => (List.mem_filter.mp ha).2)]
      at h2
  have hpermf : (sortByCmp (rowCompare s) (applyFilters F d)).filter
      (fun r => r.get f == Value.undefined)
      ~ (applyFilters F d).filter (fun r => r.get f == Value.undefined) :=
    (sortByCmp_perm (rowCompare s) (applyFilters F d)).filter _
  rw [hderived]
  exact (hsub2.eq_of_length hpermf.length_eq.symm).symm

/-- Concrete instantiation of `c9_undef_rows_kept_in_order` on rows where
the middle row lacks the `name` property. -/
theorem c9_undef_rows_kept_in_order_witness :
    (¬"name" = "")
    ∧ ((∀ a b : Row, a.get "name" = .undefined ∨ b.get "name" = .undefined →
          rowCompare sortAscName a b = 0)
      ∧ (sortedFilteredData [rowB, rowU, rowA] [] sortAscName).filter
          (fun r => r.get "name" == Value.undefined)
        = (applyFilters [] [rowB, rowU, rowA]).filter
            (fun r => r.get "name" == Value.undefined)
      ∧ sortedFilteredData [rowB, rowU, rowA] [] sortAscName
          ~ applyFilters [] [rowB, rowU, rowA]) :=
  ⟨by decide, c9_undef_rows_kept_in_order [rowB, rowU, rowA] [] sortAscName
    "name" rfl (by decide)⟩

end DataGrid
